import Mathlib

/-!
Shallow embedding of the node-iotdb core: the timestamp conflict rule, the
metadata band (`meta.js`), the input/output band update engine and the
push protocol (`model.js`), attribute key resolution (`Model.find`), and the
collection type (`thing_array.js`) with its reconciliation primitive and
persisted-command log.

JS conventions used throughout the embedding:
- JS `null` on a band value is `Option.none`; a key absent from a dictionary
  (JS `undefined`) is a failed lookup.
- JS `===` on primitive values is decidable equality on `JSV`; JS `===` on
  objects is reference identity, modelled by a distinct `ref` field.
- `_.ld.expand` / `_.ld.compact` (helpers, not part of the sources) are
  treated as the identity on keys and values.
-/

namespace IOTDB

/-- A JS primitive value (string, number, boolean) as stored in bands and
dictionaries. `_.is.Equal` (deep equality) is decidable equality here. -/
inductive JSV where
  | s (v : String)
  | i (v : Int)
  | b (v : Bool)
deriving DecidableEq, Repr

/-- JS truthiness of a primitive value ("" , 0 and false are falsy). -/
def truthy : JSV → Bool
  | .s v => v ≠ ""
  | .i v => v ≠ 0
  | .b v => v

/-- A JS dictionary with string keys, in property-insertion order. -/
abbrev Dict := List (String × JSV)

/-- JS property assignment `d[k] = v`: replaces the binding in place if the
key exists, otherwise appends it. -/
def dset (d : Dict) (k : String) (v : JSV) : Dict :=
  match d with
  | [] => [(k, v)]
  | (k', v') :: rest => if k' = k then (k, v) :: rest else (k', v') :: dset rest k v

/-- `_.extend(a, b)`: copy every property of `b` onto `a` (b wins). -/
def dextend (a b : Dict) : Dict :=
  b.foldl (fun acc kv => dset acc kv.1 kv.2) a

/-- The expanded IRI constant `constants.iot_reachable` (constants.js is not
in the sources; the exact IRI text is immaterial, only key identity is used). -/
def iot_reachable : String := "iot:reachable"

/-- The expanded IRI constant `constants.schema_name`. -/
def schema_name : String := "schema:name"

/-- Modelled from the spec: `_.timestamp.check.values(stored, incoming)`
(helpers/timestamp.js, which is not under the sources) — the single
last-writer-wins conflict rule of section 4.3: both absent applies, stored
absent applies, incoming absent rejects, both present applies iff
`incoming >= stored` under lexicographic comparison (ties apply). -/
def shouldApply : Option String → Option String → Bool
  | none, none => true
  | none, some _ => true
  | some _, none => false
  | some stored, some incoming => decide (stored ≤ incoming)

/-- The `"@timestamp"` property of a dictionary, when it is a string. -/
def dictTs (d : Dict) : Option String :=
  match d.lookup "@timestamp" with
  | some (JSV.s t) => some t
  | _ => none

/-- The `"@timestamp"` property of a dictionary when truthy
(mirrors the JS `if (updated["@timestamp"])` guards). -/
def truthyTs (d : Dict) : Option String :=
  match d.lookup "@timestamp" with
  | some (JSV.s t) => if t = "" then none else some t
  | _ => none

/-- Modelled from the spec: `_.timestamp.check.dictionary(od, nd)`
(helpers, not under the sources) — applies the section 4.3 rule to the
`"@timestamp"` members of the two dictionaries. -/
def tsCheckDict (od nd : Dict) : Bool :=
  shouldApply (dictTs od) (dictTs nd)

/-- Modelled from the spec: `_.timestamp.add(d)` (helpers, not under the
sources) — adds the current time as `"@timestamp"` when absent. -/
def tsAdd (d : Dict) (now : String) : Dict :=
  if (d.lookup "@timestamp").isNone then dset d "@timestamp" (.s now) else d

/-- The timestamp at the start of time, `_.timestamp.epoch()`. -/
def epoch : String := "1970-01-01T00:00:00.000Z"

/-- Modelled from the spec: `_.timestamp.advance(t)` (helpers, not under the
sources) — produces a timestamp strictly after `t` (here: a strict
lexicographic extension of it). -/
def tsAdvance (t : Option String) : String := (t.getD epoch) ++ "Z"

/-- Options dictionary of `Meta.prototype.update` with the `_.defaults`
fallbacks of meta.js lines 160-164. -/
structure MetaParamd where
  emit : Bool := true
  set_timestamp : Bool := false
  check_timestamp : Bool := false
deriving DecidableEq, Repr

/-- The metadata band of one Thing (meta.js). `base` stands for the
`thing._metad` dictionary as completed by `Meta.state` (thing id, model id,
name, bridge metadata); `updated` is the local-updates dictionary
`self._updated`. -/
structure Meta where
  base : Dict
  updated : Dict
deriving DecidableEq, Repr

/-- `Meta.prototype.state`: the band contents, local updates winning
(the final `_.extend(self.thing._metad, self._updated)` of meta.js line 88). -/
def Meta.state (m : Meta) : Dict := dextend m.base m.updated

/-- `Meta.prototype.get` (key expansion treated as identity; a missing key,
JS `undefined`, is `none`). -/
def Meta.get (m : Meta) (key : String) : Option JSV := m.state.lookup key

/-- One step of the update loop of `Meta.prototype.update` (meta.js lines
176-193): skip `iot:reachable` and `"@timestamp"`, skip values deep-equal to
the current state, otherwise write to `_updated` and mark changed. -/
def Meta.updateStep (st : Dict) (acc : Dict × Bool) (kv : String × JSV) : Dict × Bool :=
  if kv.1 = iot_reachable then acc
  else if kv.1 = "@timestamp" then acc
  else if st.lookup kv.1 = some kv.2 then acc
  else (dset acc.1 kv.1 kv.2, true)

/-- `Meta.prototype.update` (meta.js lines 152-212). `now` stands for
`_.timestamp.make()`. The timestamp-conflict gate rejects the whole update
before anything is written; `emit` only triggers a notification callback and
changes no state, so it is not modelled further. -/
def Meta.update (m : Meta) (ind : Dict) (paramd : MetaParamd) (now : String) : Meta :=
  let in_timestamp := ind.lookup "@timestamp"
  if paramd.check_timestamp ∧ tsCheckDict m.updated ind = false then m
  else
    let st := m.state
    let r := ind.foldl (Meta.updateStep st) (m.updated, false)
    let upd := r.1
    let upd :=
      if r.2 ∧ paramd.set_timestamp then
        match in_timestamp with
        | some t => if truthy t then dset upd "@timestamp" t else dset upd "@timestamp" (.s now)
        | none => dset upd "@timestamp" (.s now)
      else upd
    { m with updated := upd }

/-- A JSON-LD attribute property value: a primitive or a list of primitives
(as produced by `_.ld` on expanded attribute declarations). -/
inductive LDV where
  | prim (v : JSV)
  | arr (vs : List JSV)
deriving DecidableEq, Repr

/-- One attribute of a Model (attribute.js is not under the sources; the
flags below are modelled from the spec's AttributeSchema: `sensor` is
`is_sensor()` / the readable flag, `actuator` is `is_actuator()` / the
writable flag, `type_null` is `is_type_null()`, `force` is the
`attribute.force` member read at model.js line 816, `clear_value` is the
`iot:clear-value` marker read at line 936, and `props` holds the expanded
semantic properties that `Model.find` matches against). `ivalue`/`ovalue`
are `_ivalue`/`_ovalue` (JS `null` is `none`), `ichanged`/`ochanged` the
transient change marks. -/
structure Attr where
  code : String
  props : List (String × LDV) := []
  ivalue : Option JSV := none
  ovalue : Option JSV := none
  ichanged : Bool := false
  ochanged : Bool := false
  sensor : Bool := false
  actuator : Bool := false
  type_null : Bool := false
  force : Bool := false
  clear_value : Bool := false
deriving DecidableEq, Repr

/-- The bound Bridge as the Model sees it: reachability plus the binding's
optional enumeration remap table `binding.mapping` (a per-attribute-code
dictionary from declared value to wire value). -/
structure Bridge where
  reachable : Bool
  mapping : Option (List (String × List (JSV × JSV))) := none
deriving DecidableEq, Repr

/-- A Model / Thing (model.js): the ordered attribute list (codes unique, so
the `__attributed` dictionary is lookup by code), the two band timestamps
`_itimestamp`/`_otimestamp`, the in-flight push counter `_pushes`, the bound
`bridge_instance`, and the band-level events emitted so far (`"state"`,
`"istate"`, `"ostate"`; deferred next-tick emissions are recorded in program
order). -/
structure Model where
  attributes : List Attr
  itimestamp : Option String := none
  otimestamp : Option String := none
  pushes : Int := 0
  bridge : Option Bridge := none
  events : List String := []
deriving DecidableEq, Repr

/-- Replace the attribute with code `c` (codes are unique, so this is the
in-place mutation of the single `__attributed[c]` object). -/
def updAttr (l : List Attr) (c : String) (f : Attr → Attr) : List Attr :=
  l.map fun a => if a.code = c then f a else a

/-- The key argument of `find`/`get`/`set`: a direct attribute code, or a
structured semantic match dictionary. (A string key containing `":"` is
turned into a one-entry `iot:purpose` dictionary by model.js lines
1586-1602, so it is the `dict` case here.) -/
inductive FindKey where
  | code (c : String)
  | dict (d : List (String × LDV))
deriving DecidableEq, Repr

/-- One constraint test of the match loop (model.js lines 1637-1657):
an array-valued attribute property must contain the constraint value(s),
a primitive one must equal it; a property the attribute does not declare
fails the constraint. -/
def matchValue : LDV → LDV → Bool
  | .arr avs, .arr mvs => mvs.all (fun mv => avs.contains mv)
  | .arr avs, .prim mv => avs.contains mv
  | .prim av, .prim mv => mv = av
  | .prim _, .arr _ => false

/-- The test `match_key.indexOf('@') === 0` of model.js line 1632: the key
starts with the character `@`. -/
def isAtKey (s : String) : Bool := s.data.head? = some '@'

/-- Whether an attribute satisfies every constraint of the match dictionary
(model.js lines 1623-1658): `schema:name` and `"@"`-keys are always
ignored. -/
def matchOne (d : List (String × LDV)) (a : Attr) : Bool :=
  d.all fun kv =>
    if kv.1 = schema_name then true
    else if isAtKey kv.1 then true
    else
      match a.props.lookup kv.1 with
      | none => false
      | some av => matchValue av kv.2

/-- The disambiguation of multiple matches (model.js lines 1675-1705):
a single match is returned as is; otherwise the first sensor and first
actuator matches are computed, mode `set` prefers the actuator, modes
`get`/`on` prefer the sensor, and the fallback is actuator, then sensor,
then the first match. -/
def resolveMatches (mode : String) (ms : List Attr) : Option Attr :=
  if ms.length == 1 then ms.head?
  else
    let match_sensor := ms.find? (fun a => a.sensor)
    let match_actuator := ms.find? (fun a => a.actuator)
    if mode = "set" ∧ match_actuator.isSome then match_actuator
    else if mode = "get" ∧ match_sensor.isSome then match_sensor
    else if mode = "on" ∧ match_sensor.isSome then match_sensor
    else if match_actuator.isSome then match_actuator
    else if match_sensor.isSome then match_sensor
    else ms.head?

/-- `Model.prototype.find` (model.js lines 1569-1710) restricted to this
Model: a plain code key is looked up in `__attributed`; a dictionary key is
matched against every attribute and disambiguated by mode. -/
def Model.find (m : Model) (k : FindKey) (mode : String) : Option Attr :=
  match k with
  | .code c => m.attributes.find? (fun a => a.code = c)
  | .dict d => resolveMatches mode (m.attributes.filter (matchOne d))

/-- `Model.prototype.get` (model.js lines 581-615): resolve the key in mode
`"get"`; an unresolved key is `none` (JS `undefined`, logged); a resolved
attribute yields the input-band value if non-null, else the output-band
value if non-null, else JS `null` (`some none`). -/
def Model.get (m : Model) (k : FindKey) : Option (Option JSV) :=
  match m.find k "get" with
  | none => none
  | some a =>
    some (match a.ivalue with
          | some iv => some iv
          | none =>
            match a.ovalue with
            | some ov => some ov
            | none => none)

/-- Options of `_update_istate` with the `_.defaults` of model.js 662-667. -/
structure IStateParamd where
  check_timestamp : Bool := true
  set_timestamp : Bool := true
  notify : Bool := true
  validate : Bool := false
deriving DecidableEq, Repr

/-- Options of `_update_ostate` with the `_.defaults` of model.js 768-775. -/
structure OStateParamd where
  add_timestamp : Bool := true
  check_timestamp : Bool := true
  set_timestamp : Bool := true
  notify : Bool := true
  validate : Bool := true
  force : Bool := false
deriving DecidableEq, Repr

/-- One iteration of the `_update_istate` loop (model.js lines 676-714):
unknown codes (including `"@timestamp"`) are skipped, optional validation
drops the field when it yields `undefined`, a null-typed attribute always
counts as changed, an unchanged value is skipped, otherwise `_ivalue` and
`_ichanged` are written and the attribute is recorded as changed. -/
def istateStep (vv : Attr → JSV → Option JSV) (validate : Bool)
    (acc : List Attr × List String) (kv : String × JSV) : List Attr × List String :=
  match acc.1.find? (fun a => a.code = kv.1) with
  | none => acc
  | some a =>
    match (if validate then vv a kv.2 else some kv.2) with
    | none => acc
    | some v =>
      if a.type_null = false ∧ a.ivalue = some v then acc
      else (updAttr acc.1 a.code (fun a => { a with ivalue := some v, ichanged := true }),
            acc.2 ++ [a.code])

/-- `Model.prototype._update_istate` (model.js lines 659-759). `vv` stands
for `attribute.validate_value` (attribute.js is not under the sources), `now`
for `_.timestamp.make()`. Per-attribute listener callbacks (lines 731-742)
call external functions and are not modelled; the band-level `"state"` and
`"istate"` emissions are recorded as events. -/
def Model.update_istate (vv : Attr → JSV → Option JSV) (m : Model) (updated : Dict)
    (paramd : IStateParamd) (now : String) : Model :=
  if paramd.check_timestamp ∧ shouldApply m.itimestamp (dictTs updated) = false then m
  else
    let r := updated.foldl (istateStep vv paramd.validate) (m.attributes, [])
    let changed := r.2
    if changed.isEmpty then { m with attributes := r.1 }
    else
      let m := { m with attributes := r.1 }
      let m := if paramd.set_timestamp then { m with itimestamp := some ((truthyTs updated).getD now) } else m
      let m := if paramd.notify then { m with events := m.events ++ ["state"] } else m
      let m := { m with events := m.events ++ ["istate"] }
      { m with attributes := changed.foldl (fun l c => updAttr l c (fun a => { a with ichanged := false })) m.attributes }

/-- One iteration of the `_update_ostate` loop (model.js lines 789-827):
as for the input band, except that a forced attribute always applies and the
comparison is against `_ovalue`. -/
def ostateStep (vv : Attr → JSV → Option JSV) (validate : Bool)
    (acc : List Attr × List String) (kv : String × JSV) : List Attr × List String :=
  match acc.1.find? (fun a => a.code = kv.1) with
  | none => acc
  | some a =>
    match (if validate then vv a kv.2 else some kv.2) with
    | none => acc
    | some v =>
      if a.force = false ∧ a.type_null = false ∧ a.ovalue = some v then acc
      else (updAttr acc.1 a.code (fun a => { a with ovalue := some v, ochanged := true }),
            acc.2 ++ [a.code])

/-- The attribute state after `_clear_ostate` visits it (model.js lines
990-999): already-clear attributes are left alone, every other one has
`_ochanged` reset and `_ovalue` nulled. -/
def clearAttr (a : Attr) : Attr :=
  if a.ovalue = none ∧ a.ochanged = false then a
  else { a with ochanged := false, ovalue := none }

/-- `Model.prototype._clear_ostate` (model.js lines 985-1005): null every
output-band value; if anything was nulled, advance `_otimestamp` and emit one
`"ostate"` event. -/
def Model.clear_ostate (m : Model) : Model :=
  let changed := m.attributes.any (fun a => !(a.ovalue = none ∧ a.ochanged = false))
  let m' := { m with attributes := m.attributes.map clearAttr }
  if changed then
    { m' with otimestamp := some (tsAdvance m.otimestamp), events := m'.events ++ ["ostate"] }
  else m'

/-- The enumeration remap of one pushed value (model.js lines 920-931, the
`binding.mapping` lookup; the `_.ld.compact` fallback lookup coincides with
the direct one because compaction is treated as identity). -/
def mapRemap (mapping : Option (List (String × List (JSV × JSV)))) (code : String)
    (av : Option JSV) : Option JSV :=
  match mapping, av with
  | some mp, some v =>
    match mp.lookup code with
    | some md =>
      match md.lookup v with
      | some w => some w
      | none => av
    | none => av
  | _, _ => av

/-- The flat mapping handed to `bridge.push` (values can be JS null). -/
abbrev PushD := List (String × Option JSV)

/-- JS property assignment on a push dictionary. -/
def dsetO (d : PushD) (k : String) (v : Option JSV) : PushD :=
  match d with
  | [] => [(k, v)]
  | (k', v') :: rest => if k' = k then (k, v) :: rest else (k', v') :: dsetO rest k v

/-- The synchronous part of `Model.prototype._push_attributes` (model.js
lines 890-944): without a reachable bridge the output band is cleared at
once and nothing is pushed; otherwise the push dictionary is serialized
(applying the remap table), `iot:clear-value` attributes are nulled, and a
non-empty dictionary is returned for the deferred dispatch. -/
def Model.push_sync (m : Model) (codes : List String) : Model × Option PushD :=
  match m.bridge with
  | none => (m.clear_ostate, none)
  | some br =>
    if br.reachable = false then (m.clear_ostate, none)
    else
      let step : Model × PushD → String → Model × PushD := fun acc c =>
        match acc.1.attributes.find? (fun a => a.code = c) with
        | none => acc
        | some a =>
          let pushd := dsetO acc.2 c (mapRemap br.mapping c a.ovalue)
          let m := if a.clear_value then
              { acc.1 with attributes := updAttr acc.1.attributes c (fun a => { a with ovalue := none }) }
            else acc.1
          (m, pushd)
      let r := codes.foldl step (m, [])
      if r.2.isEmpty then (r.1, none) else (r.1, some r.2)

/-- `Model.prototype._update_ostate` (model.js lines 765-880): add the
timestamp, gate on the timestamp-conflict rule, apply each field, hand the
changed attributes to `_push_attributes`, then set `_otimestamp` and record
the deferred `"state"`/`"ostate"` emissions, and finally reset the
`_ochanged` marks. Returns the model plus the dictionary scheduled for the
bridge push, if any. -/
def Model.update_ostate (vv : Attr → JSV → Option JSV) (m : Model) (updated : Dict)
    (paramd : OStateParamd) (now : String) : Model × Option PushD :=
  let updated := if paramd.add_timestamp then tsAdd updated now else updated
  if paramd.check_timestamp ∧ shouldApply m.otimestamp (dictTs updated) = false then (m, none)
  else
    let r := updated.foldl (ostateStep vv paramd.validate) (m.attributes, [])
    let changed := r.2
    let m := { m with attributes := r.1 }
    let rp := if changed.isEmpty then (m, none) else m.push_sync changed
    let m := rp.1
    let job := rp.2
    let m :=
      if changed.isEmpty then m
      else
        let m := if paramd.set_timestamp then { m with otimestamp := some ((truthyTs updated).getD now) } else m
        let m := if paramd.notify then { m with events := m.events ++ ["state"] } else m
        { m with events := m.events ++ ["ostate"] }
    let m := { m with attributes := changed.foldl (fun l c => updAttr l c (fun a => { a with ochanged := false })) m.attributes }
    (m, job)

/-- `Model.prototype.set` (model.js lines 1038-1084): resolve the key in
mode `"set"` (an unresolved key is a logged no-op), then update the output
band with `{code: value, "@timestamp": now}` and `check_timestamp` off. -/
def Model.set (vv : Attr → JSV → Option JSV) (m : Model) (k : FindKey) (v : JSV)
    (now : String) : Model × Option PushD :=
  match m.find k "set" with
  | none => (m, none)
  | some a => m.update_ostate vv [(a.code, v), ("@timestamp", .s now)] { check_timestamp := false } now

/-- The start of the deferred push job (model.js lines 947-952): nothing
happens if the bridge is gone, otherwise the in-flight counter is
incremented and `bridge.push` is invoked. -/
def Model.push_dispatch (m : Model) : Model :=
  if m.bridge.isNone then m else { m with pushes := m.pushes + 1 }

/-- The push callback and the catch handler share this accounting (model.js
lines 963-965 and 974-976): decrement `_pushes` and clear the output band
when it reaches zero. -/
def Model.push_settle (m : Model) : Model :=
  let m' := { m with pushes := m.pushes - 1 }
  if m'.pushes = 0 then m'.clear_ostate else m'

/-- The push callback (model.js lines 955-966): the `error` argument is only
logged; the counter accounting is identical for success and failure. -/
def Model.push_complete (_error : Bool) (m : Model) : Model :=
  m.push_settle

/-- The whole deferred push job when `bridge.push` throws synchronously
(model.js lines 947-977, catch branch): the counter is incremented, the
exception is caught and logged, and the same settle accounting runs. -/
def Model.push_raise (m : Model) : Model :=
  if m.bridge.isNone then m else m.push_dispatch.push_settle

/-- A Thing as a collection member: `ref` is the JS object reference (the
identity that `t === thing` compares; distinct objects have distinct refs),
`tid` is `thing_id()`. -/
structure Thing where
  ref : Nat
  tid : String
deriving DecidableEq, Repr

/-- The emit options of `ThingArray.push` with the `_.defaults` of
thing_array.js lines 152-155. -/
structure PushParamd where
  emit_pushed : Bool := true
  emit_new : Bool := true
deriving DecidableEq, Repr

/-- A ThingArray (thing_array.js): the ordered member sequence and the
events it has emitted (`"pushed"` = EVENT_THING_PUSHED, `"new"` =
EVENT_THING_NEW, `"things_changed"` = EVENT_THINGS_CHANGED). Persisted
commands are modelled separately by `persistCommand`, since replay mutates
the joining Thing, not the array. -/
structure ThingArray where
  items : List Thing
  events : List String := []
deriving DecidableEq, Repr

/-- `ThingArray.prototype.things_changed` (thing_array.js lines 625-635). -/
def ThingArray.things_changed (arr : ThingArray) : ThingArray :=
  { arr with events := arr.events ++ ["things_changed"] }

/-- `ThingArray.prototype.push` (thing_array.js lines 121-179): a Thing
already in the array *by object identity* (`t === thing`, line 139) is a
logged no-op; otherwise it is appended and the requested events are emitted,
followed by `things_changed` if any was. -/
def ThingArray.push (arr : ThingArray) (t : Thing) (paramd : PushParamd := {}) : ThingArray :=
  if arr.items.any (fun x => x.ref = t.ref) then arr
  else
    let arr := { arr with items := arr.items ++ [t] }
    let (arr, changed) :=
      if paramd.emit_pushed then ({ arr with events := arr.events ++ ["pushed"] }, true)
      else (arr, false)
    let (arr, changed) :=
      if paramd.emit_new then ({ arr with events := arr.events ++ ["new"] }, true)
      else (arr, changed)
    if changed then arr.things_changed else arr

/-- One scan step of `_merger` (thing_array.js lines 301-316): a source
Thing whose id is still unconfirmed is confirmed (deleted from `oidd`),
any other is pushed onto the output with `emit_pushed` off. -/
def mergerStep (acc : ThingArray × List String) (t : Thing) : ThingArray × List String :=
  if acc.2.contains t.tid then (acc.1, acc.2.erase t.tid)
  else (acc.1.push t { emit_pushed := false }, acc.2)

/-- `_merger(srcs, out_items)` (thing_array.js lines 284-336), the
reconciliation primitive: collect the current member ids, scan every source
in order confirming or adding, remove the members never confirmed, and
notify downstream unconditionally. -/
def merger (srcs : List (List Thing)) (out : ThingArray) : ThingArray :=
  let oidd := (out.items.map (fun o => o.tid)).dedup
  let r := srcs.foldl (fun acc src => src.foldl mergerStep acc) (out, oidd)
  let out := { r.1 with items := r.1.items.filter (fun o => !(r.2.contains o.tid)) }
  out.things_changed

/-- One scan step of the filtered view's re-run (thing_array.js lines
742-758): things failing the filter are skipped, matching ones are confirmed
or added exactly as in `_merger`. -/
def filterStep (q : Thing → Bool) (acc : ThingArray × List String) (t : Thing) :
    ThingArray × List String :=
  if q t = false then acc
  else if acc.2.contains t.tid then (acc.1, acc.2.erase t.tid)
  else (acc.1.push t { emit_pushed := false }, acc.2)

/-- The EVENT_THINGS_CHANGED handler installed by `ThingArray.filter` on a
persisting source (thing_array.js lines 730-779): re-run the filter `q`
(standing for `self._filter_test(d, ·)`) over the source against the view
`out`, and notify downstream unconditionally. -/
def filterRerun (q : Thing → Bool) (src : List Thing) (out : ThingArray) : ThingArray :=
  let oidd := (out.items.map (fun o => o.tid)).dedup
  let r := src.foldl (filterStep q) (out, oidd)
  let out := { r.1 with items := r.1.items.filter (fun o => !(r.2.contains o.tid)) }
  out.things_changed

/-- The class of a recorded bulk command: `setter` is KEY_SETTER (recorded
by `set` and `update`), `tag` is KEY_TAG, `plain` is the undefined key of
the other commands (thing_array.js lines 43-45, 429-603). -/
inductive CmdKey where
  | setter
  | tag
  | plain
deriving DecidableEq, Repr

/-- One recorded command of a persisting array's `_persistds` log: `cmd`
identifies the captured function and arguments, `key` its class. -/
structure Persistd where
  cmd : Nat
  key : CmdKey
deriving DecidableEq, Repr

/-- `ThingArray.prototype._persist_command` on a persisting array
(thing_array.js lines 220-247): recording a setter first splices out every
existing setter, then the command is appended. -/
def persistCommand (l : List Persistd) (p : Persistd) : List Persistd :=
  (if p.key = .setter then l.filter (fun q => !(q.key = .setter)) else l) ++ [p]

/-! Helper lemmas shared by the claim theorems. -/

theorem find?_isSome_eq_any {α : Type} (p : α → Bool) (l : List α) :
    (l.find? p).isSome = l.any p := by
  induction l with
  | nil => rfl
  | cons a t ih =>
    by_cases h : p a = true
    · simp [List.find?_cons_of_pos _ h, h]
    · have hf : p a = false := by simpa using h
      rw [List.find?_cons_of_neg _ h, ih]
      simp [hf]

theorem clearAttr_ovalue (a : Attr) : (clearAttr a).ovalue = none := by
  unfold clearAttr
  by_cases h : a.ovalue = none ∧ a.ochanged = false
  · simp [h, h.1]
  · simp [h]

theorem clear_ostate_attributes (m : Model) :
    m.clear_ostate.attributes = m.attributes.map clearAttr := by
  unfold Model.clear_ostate
  dsimp only
  split <;> rfl

theorem clear_ostate_all_none (m : Model) :
    ∀ a ∈ m.clear_ostate.attributes, a.ovalue = none := by
  intro a ha
  rw [clear_ostate_attributes] at ha
  obtain ⟨b, _, rfl⟩ := List.mem_map.mp ha
  exact clearAttr_ovalue b

theorem clear_ostate_pushes (m : Model) : m.clear_ostate.pushes = m.pushes := by
  unfold Model.clear_ostate
  dsimp only
  split <;> rfl

/-! C1 -/

/-- C1: the timestamp conflict rule consulted whenever `check_timestamp` is
requested decides exactly per the four-case table: both absent applies;
stored absent with incoming present applies; stored present with incoming
absent rejects; both present applies iff the incoming timestamp is
lexicographically greater than or equal to the stored one, ties applying
the incoming value. -/
theorem shouldApply_conflict_table :
    (shouldApply none none = true) ∧
    (∀ i, shouldApply none (some i) = true) ∧
    (∀ s, shouldApply (some s) none = false) ∧
    (∀ s i, shouldApply (some s) (some i) = decide (s ≤ i)) ∧
    (∀ t, shouldApply (some t) (some t) = true) := by
  refine ⟨rfl, fun i => rfl, fun s => rfl, fun s i => rfl, fun t => ?_⟩
  simp [shouldApply]

/-! C7 -/

/-- C7: when `update` is gated by `check_timestamp` and the incoming
timestamp loses the conflict comparison against the stored band timestamp,
the metadata update is an atomic no-op: the band dictionary, its timestamp
and everything else are left exactly as they were. -/
theorem meta_update_conflict_noop (m : Meta) (ind : Dict) (paramd : MetaParamd)
    (now : String)
    (hc : paramd.check_timestamp = true)
    (hl : tsCheckDict m.updated ind = false) :
    Meta.update m ind paramd now = m := by
  unfold Meta.update
  simp [hc, hl]

/-- C7 witness: `update({"name":"A"}, {set_timestamp:true})` followed by
`update({"name":"B"}, {check_timestamp:true})` with no incoming timestamp
leaves the band untouched and `get("name")` still yields `"A"`. -/
theorem meta_update_conflict_noop_witness :
    tsCheckDict (Meta.update ⟨[], []⟩ [("name", JSV.s "A")] { set_timestamp := true } "T1").updated
        [("name", JSV.s "B")] = false ∧
    Meta.update (Meta.update ⟨[], []⟩ [("name", JSV.s "A")] { set_timestamp := true } "T1")
        [("name", JSV.s "B")] { check_timestamp := true } "T2"
      = Meta.update ⟨[], []⟩ [("name", JSV.s "A")] { set_timestamp := true } "T1" ∧
    Meta.get (Meta.update ⟨[], []⟩ [("name", JSV.s "A")] { set_timestamp := true } "T1") "name"
      = some (JSV.s "A") :=
  ⟨by decide, meta_update_conflict_noop _ _ _ _ rfl (by decide), by decide⟩

/-! C3 -/

/-- C3 counterexample: membership in `push` is keyed by object identity,
not by `entity_id` — pushing a second Thing object carrying an entity id
that is already a member grows the collection and duplicates the id. -/
theorem push_duplicate_entity_id_counterexample :
    ((⟨[⟨0, "x"⟩], []⟩ : ThingArray).items.map (fun t => t.tid)).contains "x" = true ∧
    (ThingArray.push ⟨[⟨0, "x"⟩], []⟩ ⟨1, "x"⟩).items.length = 2 ∧
    ((ThingArray.push ⟨[⟨0, "x"⟩], []⟩ ⟨1, "x"⟩).items.map (fun t => t.tid)) = ["x", "x"] := by
  decide

/-- C3 amended: pushing an entity that is already a member *as the same
object* (the `t === thing` identity check) is a complete no-op — length,
membership and events are unchanged; the dedupe key is the object
reference, not the entity id. -/
theorem push_same_object_noop (arr : ThingArray) (t : Thing) (paramd : PushParamd)
    (h : arr.items.any (fun x => x.ref = t.ref) = true) :
    ThingArray.push arr t paramd = arr := by
  unfold ThingArray.push
  simp [h]

/-- C3 amended witness: pushing the very same Thing object twice leaves the
collection unchanged. -/
theorem push_same_object_noop_witness :
    ((⟨[⟨0, "x"⟩], []⟩ : ThingArray).items.any (fun x => x.ref = (⟨0, "x"⟩ : Thing).ref) = true) ∧
    ThingArray.push ⟨[⟨0, "x"⟩], []⟩ ⟨0, "x"⟩ {} = ⟨[⟨0, "x"⟩], []⟩ :=
  ⟨by decide, push_same_object_noop _ _ _ (by decide)⟩

/-! C5 -/

theorem persist_log_invariant (cmds : List Persistd) :
    ∀ l : List Persistd,
      (l.filter (fun p => p.key = .setter)).length ≤ 1 →
      ((cmds.foldl persistCommand l).filter (fun p => p.key = .setter)).length ≤ 1 ∧
      (cmds.foldl persistCommand l).filter (fun p => !(p.key = .setter))
        = l.filter (fun p => !(p.key = .setter)) ++ cmds.filter (fun p => !(p.key = .setter)) := by
  induction cmds with
  | nil => intro l hl; simpa using hl
  | cons p ps ih =>
    intro l hl
    have hstep : ((persistCommand l p).filter (fun p => p.key = .setter)).length ≤ 1 := by
      unfold persistCommand
      by_cases hk : p.key = CmdKey.setter
      · simp [hk, List.filter_append, List.filter_filter]
      · simp [hk, List.filter_append]
        exact hl
    obtain ⟨h1, h2⟩ := ih (persistCommand l p) hstep
    refine ⟨by simpa using h1, ?_⟩
    have hns : (persistCommand l p).filter (fun p => !(p.key = .setter))
        = l.filter (fun p => !(p.key = .setter)) ++ (if p.key = CmdKey.setter then [] else [p]) := by
      unfold persistCommand
      by_cases hk : p.key = CmdKey.setter
      · simp [hk, List.filter_append, List.filter_filter]
      · simp [hk, List.filter_append]
    by_cases hk : p.key = CmdKey.setter
    · simp only [List.foldl_cons] at h2 ⊢
      rw [h2, hns]
      simp [hk]
    · simp only [List.foldl_cons] at h2 ⊢
      rw [h2, hns]
      simp [hk]

/-- C5: after any sequence of recorded bulk commands, the persisted-command
log holds at most one setter-class command, while the commands of every
other class are all retained, in original issuance order. -/
theorem persist_log_single_setter (cmds : List Persistd) :
    ((cmds.foldl persistCommand []).filter (fun p => p.key = .setter)).length ≤ 1 ∧
    (cmds.foldl persistCommand []).filter (fun p => !(p.key = .setter))
      = cmds.filter (fun p => !(p.key = .setter)) := by
  have h := persist_log_invariant cmds [] (by simp)
  simpa using h

/-! C4 -/

theorem merger_scan_self (l : List Thing) (out : ThingArray) :
    l.foldl mergerStep (out, l.map (fun o => o.tid)) = (out, []) := by
  induction l with
  | nil => rfl
  | cons t ts ih =>
    rw [List.foldl_cons]
    have hstep : mergerStep (out, (t :: ts).map (fun o => o.tid)) t
        = (out, ts.map (fun o => o.tid)) := by
      unfold mergerStep
      simp [List.erase_cons_head]
    rw [hstep]
    exact ih

/-- C4: the reconciliation primitive is idempotent — running `_merger` with
the proposed members equal to the current members adds nothing, removes
nothing, leaves membership and order unchanged, and emits only the
unconditional downstream notification. -/
theorem merger_reconcile_idempotent (A : List Thing) (out : ThingArray)
    (hitems : out.items = A) (hnd : (A.map (fun o => o.tid)).Nodup) :
    (merger [A] out).items = out.items ∧
    (merger [A] out).events = out.events ++ ["things_changed"] := by
  unfold merger
  dsimp only
  rw [List.foldl_cons, List.foldl_nil, hitems, List.Nodup.dedup hnd, merger_scan_self]
  simp [ThingArray.things_changed, List.contains, hitems]

/-- C4 witness: reconciling a two-member collection against itself. -/
theorem merger_reconcile_idempotent_witness :
    (⟨[⟨0, "x"⟩, ⟨1, "y"⟩], ["e"]⟩ : ThingArray).items = [⟨0, "x"⟩, ⟨1, "y"⟩] ∧
    (([⟨0, "x"⟩, ⟨1, "y"⟩] : List Thing).map (fun o => o.tid)).Nodup ∧
    (merger [[⟨0, "x"⟩, ⟨1, "y"⟩]] ⟨[⟨0, "x"⟩, ⟨1, "y"⟩], ["e"]⟩).items
      = (⟨[⟨0, "x"⟩, ⟨1, "y"⟩], ["e"]⟩ : ThingArray).items ∧
    (merger [[⟨0, "x"⟩, ⟨1, "y"⟩]] ⟨[⟨0, "x"⟩, ⟨1, "y"⟩], ["e"]⟩).events
      = (⟨[⟨0, "x"⟩, ⟨1, "y"⟩], ["e"]⟩ : ThingArray).events ++ ["things_changed"] :=
  ⟨rfl, by decide,
   (merger_reconcile_idempotent _ _ rfl (by decide)).1,
   (merger_reconcile_idempotent _ _ rfl (by decide)).2⟩

/-! C9 -/

/-- C9 counterexample: one source membership-changed event that adds one
matching thing to an (empty) filtered view makes the view emit its
downstream membership-changed notification twice — once from `push` and
once from the unconditional final notification — not exactly once. -/
theorem filter_rerun_notify_counterexample :
    (filterRerun (fun _ => true) [⟨0, "x"⟩] ⟨[], []⟩).events.count "things_changed" = 2 := by
  decide

theorem filter_scan_fix (q : Thing → Bool) (src : List Thing) :
    ∀ oidd : List String, (src.map (fun t => t.tid)).Nodup →
      (∀ t ∈ src, q t = true → t.tid ∈ oidd) →
      ∀ out : ThingArray, (src.foldl (filterStep q) (out, oidd)).1 = out := by
  induction src with
  | nil => intro oidd _ _ out; rfl
  | cons t ts ih =>
    intro oidd hnd hmem out
    rw [List.foldl_cons]
    by_cases hq : q t = true
    · have hin : t.tid ∈ oidd := hmem t (List.mem_cons_self t ts) hq
      have hstep : filterStep q (out, oidd) t = (out, oidd.erase t.tid) := by
        unfold filterStep
        simp [hq, hin]
      rw [hstep]
      refine ih (oidd.erase t.tid) ?_ ?_ out
      · exact (List.nodup_cons.mp (by simpa using hnd)).2
      · intro u hu hqu
        have hne : u.tid ≠ t.tid := by
          have hhead : t.tid ∉ ts.map (fun o => o.tid) :=
            (List.nodup_cons.mp (by simpa using hnd)).1
          intro he
          exact hhead (he ▸ List.mem_map_of_mem (fun o => o.tid) hu)
        exact (List.mem_erase_of_ne hne).mpr (hmem u (List.mem_cons_of_mem t hu) hqu)
    · have hstep : filterStep q (out, oidd) t = (out, oidd) := by
        unfold filterStep
        simp [hq]
      rw [hstep]
      refine ih oidd ?_ ?_ out
      · exact (List.nodup_cons.mp (by simpa using hnd)).2
      · exact fun u hu hqu => hmem u (List.mem_cons_of_mem t hu) hqu

/-- C9 amended: a filtered view's re-run always emits the downstream
membership-changed notification, and it emits it exactly once whenever the
re-run adds no new member (each added member emits one extra `push`-side
notification); in particular one notification fires even when membership is
entirely unchanged. -/
theorem filter_rerun_notifies_unconditionally
    (q : Thing → Bool) (src : List Thing) (out : ThingArray)
    (hnd : (src.map (fun t => t.tid)).Nodup)
    (hmem : ∀ t ∈ src, q t = true → t.tid ∈ out.items.map (fun o => o.tid)) :
    (filterRerun q src out).events = out.events ++ ["things_changed"] := by
  unfold filterRerun
  dsimp only
  have h1 : (src.foldl (filterStep q) (out, (out.items.map (fun o => o.tid)).dedup)).1 = out := by
    refine filter_scan_fix q src _ hnd ?_ out
    intro t ht hq
    exact List.mem_dedup.mpr (hmem t ht hq)
  rw [ThingArray.things_changed, h1]

/-- C9 amended witness: a source event that leaves the view's membership
unchanged triggers exactly one downstream notification. -/
theorem filter_rerun_notifies_unconditionally_witness :
    (([⟨0, "x"⟩] : List Thing).map (fun t => t.tid)).Nodup ∧
    (∀ t ∈ ([⟨0, "x"⟩] : List Thing), (fun (_ : Thing) => true) t = true →
      t.tid ∈ (⟨[⟨0, "x"⟩], ["e"]⟩ : ThingArray).items.map (fun o => o.tid)) ∧
    (filterRerun (fun _ => true) [⟨0, "x"⟩] ⟨[⟨0, "x"⟩], ["e"]⟩).events = ["e", "things_changed"] :=
  ⟨by decide, by decide,
   filter_rerun_notifies_unconditionally _ _ _ (by decide) (by decide)⟩

/-! C10 -/

/-- C10: for every attribute `get` resolves, the returned value is the
input-band value when that is non-null, otherwise the output-band value
(null when that is null too): the input band takes precedence over a
pending desired value. -/
theorem get_input_band_precedence (m : Model) (k : FindKey) (a : Attr)
    (h : m.find k "get" = some a) :
    (a.ivalue.isSome = true → m.get k = some a.ivalue) ∧
    (a.ivalue = none → m.get k = some a.ovalue) := by
  unfold Model.get
  rw [h]
  constructor
  · intro hi
    obtain ⟨iv, hiv⟩ := Option.isSome_iff_exists.mp hi
    simp [hiv]
  · intro hi
    cases ho : a.ovalue <;> simp [hi, ho]

/-- C10 witness: an attribute carrying both an observed and a desired value
reads back the observed one; with the observed value null it reads back the
desired one. -/
theorem get_input_band_precedence_witness :
    (Model.find { attributes := [{ code := "c", ivalue := some (JSV.s "iv"), ovalue := some (JSV.s "ov") }] }
        (.code "c") "get"
      = some { code := "c", ivalue := some (JSV.s "iv"), ovalue := some (JSV.s "ov") }) ∧
    (({ code := "c", ivalue := some (JSV.s "iv"), ovalue := some (JSV.s "ov") } : Attr).ivalue.isSome = true →
      Model.get { attributes := [{ code := "c", ivalue := some (JSV.s "iv"), ovalue := some (JSV.s "ov") }] }
          (.code "c")
        = some (some (JSV.s "iv"))) :=
  ⟨by decide,
   fun hi => (get_input_band_precedence _ _ _ (by decide)).1 hi⟩

/-! C8 -/

/-- C8 counterexample: with mode `"get"` and no readable attribute among
the two matches, `find` does not fall back to the first match in
declaration order — it returns the later actuator match. -/
theorem find_mode_fallback_counterexample :
    let A1 : Attr := { code := "a", props := [("p", .prim (.s "x"))] }
    let A2 : Attr := { code := "b", props := [("p", .prim (.s "x"))], actuator := true }
    let m : Model := { attributes := [A1, A2] }
    let d : List (String × LDV) := [("p", .prim (.s "x"))]
    m.attributes.filter (matchOne d) = [A1, A2] ∧
    A1.sensor = false ∧ A2.sensor = false ∧
    Model.find m (.dict d) "get" = some A2 ∧
    A1 ≠ A2 := by
  decide

theorem resolve_mode_preference (mode : String) (ms : List Attr) (h2 : 2 ≤ ms.length) :
    (mode = "set" → ms.any (fun a => a.actuator) = true →
      resolveMatches mode ms = ms.find? (fun a => a.actuator)) ∧
    ((mode = "get" ∨ mode = "on") → ms.any (fun a => a.sensor) = true →
      resolveMatches mode ms = ms.find? (fun a => a.sensor)) ∧
    ((mode = "set" → ms.any (fun a => a.actuator) = false) →
     ((mode = "get" ∨ mode = "on") → ms.any (fun a => a.sensor) = false) →
      resolveMatches mode ms =
        (if ms.any (fun a => a.actuator) = true then ms.find? (fun a => a.actuator)
         else if ms.any (fun a => a.sensor) = true then ms.find? (fun a => a.sensor)
         else ms.head?)) := by
  have hlen : (ms.length == 1) = false := by
    simp only [beq_eq_false_iff_ne]
    omega
  have hsen := find?_isSome_eq_any (fun a : Attr => a.sensor) ms
  have hact := find?_isSome_eq_any (fun a : Attr => a.actuator) ms
  unfold resolveMatches
  dsimp only
  rw [hlen]
  simp only [Bool.false_eq_true, if_false]
  refine ⟨?_, ?_, ?_⟩
  · intro hm hany
    rw [if_pos ⟨hm, by rw [hact]; exact hany⟩]
  · intro hm hany
    have hss : (ms.find? (fun a => a.sensor)).isSome = true := by rw [hsen]; exact hany
    rcases hm with hget | hon
    · rw [if_neg (fun hc => by exact absurd (hget ▸ hc.1) (by decide)),
         if_pos ⟨hget, hss⟩]
    · rw [if_neg (fun hc => by exact absurd (hon ▸ hc.1) (by decide))]
      by_cases hgets : mode = "get" ∧ (ms.find? (fun a => a.sensor)).isSome = true
      · rw [if_pos hgets]
      · rw [if_neg hgets, if_pos ⟨hon, hss⟩]
  · intro hset hgo
    have hc1 : ¬(mode = "set" ∧ (ms.find? (fun a => a.actuator)).isSome = true) := by
      rintro ⟨hm, hs⟩
      rw [hact, hset hm] at hs
      exact absurd hs (by decide)
    have hc2 : ¬(mode = "get" ∧ (ms.find? (fun a => a.sensor)).isSome = true) := by
      rintro ⟨hm, hs⟩
      rw [hsen, hgo (Or.inl hm)] at hs
      exact absurd hs (by decide)
    have hc3 : ¬(mode = "on" ∧ (ms.find? (fun a => a.sensor)).isSome = true) := by
      rintro ⟨hm, hs⟩
      rw [hsen, hgo (Or.inr hm)] at hs
      exact absurd hs (by decide)
    rw [if_neg hc1, if_neg hc2, if_neg hc3]
    by_cases ha : ms.any (fun a => a.actuator) = true
    · rw [if_pos (by rw [hact]; exact ha), if_pos ha]
    · rw [if_neg (by rw [hact]; exact fun hc => absurd hc ha), if_neg ha]
      by_cases hs : ms.any (fun a => a.sensor) = true
      · rw [if_pos (by rw [hsen]; exact hs), if_pos hs]
      · rw [if_neg (by rw [hsen]; exact fun hc => absurd hc hs), if_neg hs]

/-- C8 amended: with several attributes matching a structured key, mode
`"set"` returns the first writable (actuator) match when one exists and
modes `"get"`/`"on"` return the first readable (sensor) match when one
exists; when no mode-appropriate match exists the fallback is not simply
the first match: it is the first actuator match, else the first sensor
match, else the first match in declaration order. -/
theorem find_mode_preference (m : Model) (d : List (String × LDV)) (mode : String)
    (h2 : 2 ≤ (m.attributes.filter (matchOne d)).length) :
    (mode = "set" → (m.attributes.filter (matchOne d)).any (fun a => a.actuator) = true →
      m.find (.dict d) mode = (m.attributes.filter (matchOne d)).find? (fun a => a.actuator)) ∧
    ((mode = "get" ∨ mode = "on") → (m.attributes.filter (matchOne d)).any (fun a => a.sensor) = true →
      m.find (.dict d) mode = (m.attributes.filter (matchOne d)).find? (fun a => a.sensor)) ∧
    ((mode = "set" → (m.attributes.filter (matchOne d)).any (fun a => a.actuator) = false) →
     ((mode = "get" ∨ mode = "on") → (m.attributes.filter (matchOne d)).any (fun a => a.sensor) = false) →
      m.find (.dict d) mode =
        (if (m.attributes.filter (matchOne d)).any (fun a => a.actuator) = true then
          (m.attributes.filter (matchOne d)).find? (fun a => a.actuator)
        else if (m.attributes.filter (matchOne d)).any (fun a => a.sensor) = true then
          (m.attributes.filter (matchOne d)).find? (fun a => a.sensor)
        else (m.attributes.filter (matchOne d)).head?)) := by
  have h := resolve_mode_preference mode (m.attributes.filter (matchOne d)) h2
  exact h

/-- C8 witness: with two matching attributes of which the later is the only
actuator, mode `"set"` resolves to that actuator match. -/
theorem find_mode_preference_witness :
    Model.find { attributes := [{ code := "a", props := [("p", .prim (.s "x"))] },
                                { code := "b", props := [("p", .prim (.s "x"))], actuator := true }] }
        (.dict [("p", .prim (.s "x"))]) "set"
      = (({ attributes := [{ code := "a", props := [("p", .prim (.s "x"))] },
                           { code := "b", props := [("p", .prim (.s "x"))], actuator := true }] } : Model).attributes.filter
          (matchOne [("p", .prim (.s "x"))])).find? (fun a => a.actuator) :=
  (find_mode_preference _ _ _ (by decide)).1 rfl (by decide)

/-! C6 -/

/-- C6: a push that reports an error to its callback, and a push whose
`bridge.push` throws synchronously, both decrement the in-flight counter
exactly once; when the counter reaches zero the output band is cleared, so
a failed push never leaves the counter stuck or a value pending. The error
flag plays no part in the accounting, and the synchronous-throw path equals
the failed-callback path. -/
theorem push_failure_settles (m : Model) (error : Bool) (hbr : m.bridge.isSome = true) :
    m.push_dispatch.pushes = m.pushes + 1 ∧
    (Model.push_complete error m.push_dispatch).pushes = m.pushes ∧
    (m.pushes = 0 → ∀ a ∈ (Model.push_complete error m.push_dispatch).attributes, a.ovalue = none) ∧
    m.push_raise = Model.push_complete error m.push_dispatch := by
  have hnone : m.bridge.isNone = false := by
    cases hb : m.bridge
    · rw [hb] at hbr
      exact absurd hbr (by decide)
    · rfl
  have hdis : m.push_dispatch = { m with pushes := m.pushes + 1 } := by
    unfold Model.push_dispatch
    rw [hnone]
    simp
  refine ⟨by rw [hdis], ?_, ?_, ?_⟩
  · unfold Model.push_complete Model.push_settle
    rw [hdis]
    dsimp only
    by_cases h0 : m.pushes + 1 - 1 = 0
    · rw [if_pos h0, clear_ostate_pushes]
      dsimp only
      omega
    · rw [if_neg h0]
      dsimp only
      omega
  · intro hz
    unfold Model.push_complete Model.push_settle
    rw [hdis]
    dsimp only
    rw [if_pos (by omega : m.pushes + 1 - 1 = 0)]
    exact clear_ostate_all_none _
  · unfold Model.push_raise Model.push_complete
    rw [hnone]
    simp

/-- C6 witness: a model with one pending output value and counter zero; the
failing push increments then decrements the counter and clears the value. -/
theorem push_failure_settles_witness :
    (({ attributes := [{ code := "c", ovalue := some (JSV.s "v") }],
        bridge := some { reachable := true } } : Model).bridge.isSome = true) ∧
    (Model.push_complete true
        ({ attributes := [{ code := "c", ovalue := some (JSV.s "v") }],
           bridge := some { reachable := true } } : Model).push_dispatch).pushes = 0 ∧
    (∀ a ∈ (Model.push_complete true
        ({ attributes := [{ code := "c", ovalue := some (JSV.s "v") }],
           bridge := some { reachable := true } } : Model).push_dispatch).attributes,
      a.ovalue = none) :=
  ⟨by decide,
   (push_failure_settles _ true (by decide)).2.1,
   (push_failure_settles _ true (by decide)).2.2.1 rfl⟩

/-! C2 -/

theorem find?_code_updAttr (l : List Attr) (c c' : String) (f : Attr → Attr)
    (hf : ∀ a : Attr, (f a).code = a.code) :
    (updAttr l c f).find? (fun a => a.code = c')
      = (l.find? (fun a => a.code = c')).map (fun a => if a.code = c then f a else a) := by
  unfold updAttr
  rw [List.find?_map]
  have hp : ((fun a : Attr => decide (a.code = c')) ∘ (fun a => if a.code = c then f a else a))
      = fun a : Attr => decide (a.code = c') := by
    funext a
    by_cases h : a.code = c
    · simp [h, hf]
    · simp [h]
  rw [hp]

theorem updAttr_updAttr (l : List Attr) (c : String) (f g : Attr → Attr)
    (hf : ∀ a : Attr, (f a).code = a.code) :
    updAttr (updAttr l c f) c g = updAttr l c (fun a => g (f a)) := by
  unfold updAttr
  rw [List.map_map]
  have hp : ((fun a : Attr => if a.code = c then g a else a) ∘ (fun a => if a.code = c then f a else a))
      = fun a : Attr => if a.code = c then g (f a) else a := by
    funext a
    by_cases h : a.code = c
    · simp [h, hf]
    · simp [h]
  rw [hp]

theorem clear_ostate_changed (m : Model)
    (h : m.attributes.any (fun a => !(a.ovalue = none ∧ a.ochanged = false)) = true) :
    m.clear_ostate
      = { m with
          attributes := m.attributes.map clearAttr,
          otimestamp := some (tsAdvance m.otimestamp),
          events := m.events ++ ["ostate"] } := by
  unfold Model.clear_ostate
  dsimp only
  rw [if_pos h]

theorem append_Z_ne (s : String) : s ++ "Z" ≠ s := by
  intro h
  have h2 := congrArg String.length h
  rw [String.length_append] at h2
  have h3 : "Z".length = 1 := rfl
  omega

/-- C2: on an entity whose output band is empty, `set(key, value)` stores
the desired value in the output band, hands exactly one push job carrying
that value to the bridge (the in-flight counter becomes 1 on dispatch), and
when that push completes successfully the counter reaches 0, the value
returns to absent, the output-band timestamp is advanced, and exactly one
`"ostate"` notification is emitted for the clearing. -/
theorem set_push_clear_roundtrip
    (attrs : List Attr) (c : String) (a0 : Attr) (v : JSV) (now : String)
    (vv : Attr → JSV → Option JSV) (br : Bridge) (its ots : Option String) (ev : List String)
    (hfind : attrs.find? (fun a => a.code = c) = some a0)
    (hts : attrs.find? (fun a => a.code = "@timestamp") = none)
    (hall : ∀ a ∈ attrs, a.ovalue = none ∧ a.ochanged = false)
    (hvv : vv a0 v = some v)
    (hnull : a0.type_null = false) (hclear : a0.clear_value = false)
    (hbr : br.reachable = true) (hmap : br.mapping = none)
    (hnow : now ≠ "") (hcts : c ≠ "@timestamp") :
    let M : Model := { attributes := attrs, itimestamp := its, otimestamp := ots,
                       pushes := 0, bridge := some br, events := ev }
    let r := Model.set vv M (.code c) v now
    let m2 := r.1.push_dispatch
    let m3 := Model.push_complete false m2
    r.2 = some [(c, some v)] ∧
    (r.1.attributes.find? (fun a => a.code = c)).map (fun a => a.ovalue) = some (some v) ∧
    r.1.pushes = 0 ∧
    r.1.otimestamp = some now ∧
    r.1.events = ev ++ ["state", "ostate"] ∧
    m2.pushes = 1 ∧
    m3.pushes = 0 ∧
    (∀ a ∈ m3.attributes, a.ovalue = none) ∧
    m3.otimestamp = some (tsAdvance r.1.otimestamp) ∧
    m3.otimestamp ≠ r.1.otimestamp ∧
    m3.events = m2.events ++ ["ostate"] := by
  dsimp only
  have hcode : a0.code = c := by
    have h := List.find?_some hfind
    simpa using h
  have hmem0 : a0 ∈ attrs := List.mem_of_find?_eq_some hfind
  have hov : a0.ovalue = none := (hall a0 hmem0).1
  have hbeq : ("@timestamp" == c) = false := by
    rw [beq_eq_false_iff_ne]
    exact fun h => hcts h.symm
  have hlook : List.lookup "@timestamp" [(c, v), ("@timestamp", JSV.s now)]
      = some (JSV.s now) := by
    simp [List.lookup, hbeq]
  have hA : tsAdd [(c, v), ("@timestamp", JSV.s now)] now = [(c, v), ("@timestamp", JSV.s now)] := by
    unfold tsAdd
    rw [hlook]
    rfl
  have htruthy : truthyTs [(c, v), ("@timestamp", JSV.s now)] = some now := by
    unfold truthyTs
    rw [hlook]
    simp [hnow]
  have hstep1 : ostateStep vv true (attrs, ([] : List String)) (c, v)
      = (updAttr attrs c (fun a => { a with ovalue := some v, ochanged := true }), [c]) := by
    simp [ostateStep, hfind, hvv, hov, hcode]
  have hfind1 : (updAttr attrs c (fun a => { a with ovalue := some v, ochanged := true })).find?
        (fun a => a.code = c)
      = some { a0 with ovalue := some v, ochanged := true } := by
    rw [find?_code_updAttr attrs c c (fun a => { a with ovalue := some v, ochanged := true })
          (fun a => rfl), hfind]
    simp [hcode]
  have hfindts : (updAttr attrs c (fun a => { a with ovalue := some v, ochanged := true })).find?
        (fun a => a.code = "@timestamp") = none := by
    rw [find?_code_updAttr attrs c "@timestamp"
          (fun a => { a with ovalue := some v, ochanged := true }) (fun a => rfl), hts]
    rfl
  have hstep2 : ostateStep vv true
        (updAttr attrs c (fun a => { a with ovalue := some v, ochanged := true }), [c])
        ("@timestamp", JSV.s now)
      = (updAttr attrs c (fun a => { a with ovalue := some v, ochanged := true }), [c]) := by
    simp [ostateStep, hfindts]
  have hfold : [(c, v), ("@timestamp", JSV.s now)].foldl (ostateStep vv true) (attrs, [])
      = (updAttr attrs c (fun a => { a with ovalue := some v, ochanged := true }), [c]) := by
    rw [List.foldl_cons, hstep1, List.foldl_cons, hstep2, List.foldl_nil]
  have hpush : Model.push_sync
        { attributes := updAttr attrs c (fun a => { a with ovalue := some v, ochanged := true }),
          itimestamp := its, otimestamp := ots, pushes := 0, bridge := some br, events := ev } [c]
      = ({ attributes := updAttr attrs c (fun a => { a with ovalue := some v, ochanged := true }),
           itimestamp := its, otimestamp := ots, pushes := 0, bridge := some br, events := ev },
         some [(c, some v)]) := by
    unfold Model.push_sync
    dsimp only
    rw [if_neg (by rw [hbr]; exact fun h => Bool.noConfusion h)]
    rw [List.foldl_cons]
    dsimp only
    rw [hfind1]
    simp [hclear, hmap, mapRemap, dsetO]
  have hupd : Model.update_ostate vv
        { attributes := attrs, itimestamp := its, otimestamp := ots, pushes := 0,
          bridge := some br, events := ev }
        [(c, v), ("@timestamp", JSV.s now)] { check_timestamp := false } now
      = ({ attributes := updAttr attrs c (fun a => { a with ovalue := some v, ochanged := false }),
           itimestamp := its, otimestamp := some now, pushes := 0, bridge := some br,
           events := (ev ++ ["state"]) ++ ["ostate"] },
         some [(c, some v)]) := by
    unfold Model.update_ostate
    dsimp only
    rw [hA]
    simp only [hfold, hpush, htruthy, eq_self_iff_true, if_true, Bool.false_eq_true, false_and,
               if_false, List.isEmpty_cons, List.foldl_cons, List.foldl_nil, Option.getD_some]
    rw [updAttr_updAttr attrs c (fun a => { a with ovalue := some v, ochanged := true })
          (fun a => { a with ochanged := false }) (fun a => rfl)]
  have hset : Model.set vv
        { attributes := attrs, itimestamp := its, otimestamp := ots, pushes := 0,
          bridge := some br, events := ev } (.code c) v now
      = ({ attributes := updAttr attrs c (fun a => { a with ovalue := some v, ochanged := false }),
           itimestamp := its, otimestamp := some now, pushes := 0, bridge := some br,
           events := (ev ++ ["state"]) ++ ["ostate"] },
         some [(c, some v)]) := by
    unfold Model.set Model.find
    dsimp only
    rw [hfind]
    dsimp only
    rw [hcode, hupd]
  rw [hset]
  dsimp only
  have hfind2 : (updAttr attrs c (fun a => { a with ovalue := some v, ochanged := false })).find?
        (fun a => a.code = c)
      = some { a0 with ovalue := some v, ochanged := false } := by
    rw [find?_code_updAttr attrs c c (fun a => { a with ovalue := some v, ochanged := false })
          (fun a => rfl), hfind]
    simp [hcode]
  have hmem2 : ({ a0 with ovalue := some v, ochanged := false } : Attr)
      ∈ updAttr attrs c (fun a => { a with ovalue := some v, ochanged := false }) :=
    List.mem_of_find?_eq_some hfind2
  have hdis : Model.push_dispatch
        { attributes := updAttr attrs c (fun a => { a with ovalue := some v, ochanged := false }),
          itimestamp := its, otimestamp := some now, pushes := 0, bridge := some br,
          events := (ev ++ ["state"]) ++ ["ostate"] }
      = { attributes := updAttr attrs c (fun a => { a with ovalue := some v, ochanged := false }),
          itimestamp := its, otimestamp := some now, pushes := 0 + 1, bridge := some br,
          events := (ev ++ ["state"]) ++ ["ostate"] } := by
    unfold Model.push_dispatch
    rfl
  rw [hdis]
  have hany : (updAttr attrs c (fun a => { a with ovalue := some v, ochanged := false })).any
      (fun a => !(a.ovalue = none ∧ a.ochanged = false)) = true := by
    rw [List.any_eq_true]
    exact ⟨{ a0 with ovalue := some v, ochanged := false }, hmem2, by simp⟩
  have hsettle : Model.push_complete false
        { attributes := updAttr attrs c (fun a => { a with ovalue := some v, ochanged := false }),
          itimestamp := its, otimestamp := some now, pushes := 0 + 1, bridge := some br,
          events := (ev ++ ["state"]) ++ ["ostate"] }
      = Model.clear_ostate
          { attributes := updAttr attrs c (fun a => { a with ovalue := some v, ochanged := false }),
            itimestamp := its, otimestamp := some now, pushes := 0 + 1 - 1, bridge := some br,
            events := (ev ++ ["state"]) ++ ["ostate"] } := by
    unfold Model.push_complete Model.push_settle
    dsimp only
    rw [if_pos (by decide : (0 : Int) + 1 - 1 = 0)]
  rw [hsettle, clear_ostate_changed _ hany]
  dsimp only
  refine ⟨rfl, ?_, rfl, rfl, by simp, by decide, by decide, ?_, rfl, ?_, rfl⟩
  · rw [hfind2]
    rfl
  · intro a ha
    obtain ⟨b, _, rfl⟩ := List.mem_map.mp ha
    exact clearAttr_ovalue b
  · intro h
    have h2 := Option.some.inj h
    exact append_Z_ne now h2

/-- C2 witness: an entity with one attribute and an empty output band,
`set("code", "red")`, dispatch, successful completion. -/
theorem set_push_clear_roundtrip_witness :
    let M : Model := { attributes := [{ code := "code" }], itimestamp := none, otimestamp := none,
                       pushes := 0, bridge := some { reachable := true }, events := [] }
    let r := Model.set (fun _ x => some x) M (.code "code") (JSV.s "red") "T1"
    let m2 := r.1.push_dispatch
    let m3 := Model.push_complete false m2
    r.2 = some [("code", some (JSV.s "red"))] ∧
    (r.1.attributes.find? (fun a => a.code = "code")).map (fun a => a.ovalue)
      = some (some (JSV.s "red")) ∧
    r.1.pushes = 0 ∧
    r.1.otimestamp = some "T1" ∧
    r.1.events = [] ++ ["state", "ostate"] ∧
    m2.pushes = 1 ∧
    m3.pushes = 0 ∧
    (∀ a ∈ m3.attributes, a.ovalue = none) ∧
    m3.otimestamp = some (tsAdvance r.1.otimestamp) ∧
    m3.otimestamp ≠ r.1.otimestamp ∧
    m3.events = m2.events ++ ["ostate"] :=
  set_push_clear_roundtrip [{ code := "code" }] "code" { code := "code" } (JSV.s "red") "T1"
    (fun _ x => some x) { reachable := true } none none []
    (by decide) (by decide) (by decide) (by decide) (by decide) (by decide)
    (by decide) (by decide) (by decide) (by decide)

end IOTDB
